import Mathlib

/-!
Shallow embedding of `src/advanced-vector/vector.h`: the raw-buffer ownership
wrapper `RawMemory<T>` and the dynamic array `Vector<T>` built on it.

Modelling conventions:
* A buffer handle (`T* buffer_`) is an `Option Nat`: `none` is the null
  pointer, `some a` is an allocation at abstract address `a`.
* A live element slot holds either a normal value or a moved-from object;
  `MVal` makes the distinction explicit so that the element-shifting loops
  (`std::move_backward`, `std::move`, `std::copy`) can be embedded
  operationally, one slot-assignment at a time, exactly in the order the
  algorithms perform them.
* A `Vector<T>` state is the list of live elements (slots `[0, size_)` of the
  buffer, so `size_` is the list length) together with `data_.Capacity()`.
* A throwing element constructor is modelled by `Option`: `none` means the
  construction raised; `Except` results carry the observable container state
  at the point the exception escapes.
* `this != &rhs` pointer-identity checks take an explicit `self : Bool`.
-/

namespace AdvVec

/-- Handle-and-capacity state of `RawMemory<T>` (vector.h lines 9-34):
`buffer : Option Nat` models the `T* buffer_` handle (`none` = null), and
`capacity` models `capacity_`.  Whether the pointed-to storage is still
allocated is tracked separately by the deallocation logs below. -/
structure RawMemory where
  buffer : Option Nat
  capacity : Nat
deriving DecidableEq

/-- `RawMemory<T>::Swap` (vector.h lines 138-143): exchanges `buffer_` and
`capacity_` of the two objects, returned as (new this, new other). -/
def RawMemory.swapOp (a b : RawMemory) : RawMemory × RawMemory :=
  (⟨b.buffer, b.capacity⟩, ⟨a.buffer, a.capacity⟩)

/-- `RawMemory<T>::operator=(RawMemory&&)` (vector.h lines 94-104):
if `this != &rhs`, it calls `Deallocate(buffer_)` (which frees the storage but
leaves the `buffer_` field holding the now-dangling pointer value) and then
`Swap(rhs)`.  Returns (new this, new rhs, list of handles passed to
`Deallocate` during the call). -/
def RawMemory.moveAssignOp (self : Bool) (tgt rhs : RawMemory) :
    RawMemory × RawMemory × List (Option Nat) :=
  if self then (tgt, rhs, [])
  else
    let freed := tgt.buffer
    let s := RawMemory.swapOp tgt rhs
    (s.1, s.2, [freed])

/-- `RawMemory<T>::~RawMemory` (vector.h lines 106-110): passes `buffer_`
to `Deallocate`; returns the list of handles deallocated. -/
def RawMemory.destructorFrees (m : RawMemory) : List (Option Nat) :=
  [m.buffer]

/-- `RawMemory<T>::RawMemory(RawMemory&&)` (vector.h lines 88-92): the fields
start default-initialized (null, 0) and are then swapped with `other`.
Returns (new this, new other). -/
def RawMemory.moveCtorOp (other : RawMemory) : RawMemory × RawMemory :=
  RawMemory.swapOp ⟨none, 0⟩ other

/-- A live element slot: a normal value or a moved-from object (a live `T`
whose value was transferred away by a move). -/
inductive MVal (α : Type) where
  | val : α → MVal α
  | moved : MVal α
deriving DecidableEq

instance {α : Type} : Inhabited (MVal α) := ⟨MVal.moved⟩

/-- Reads a slot back as a plain value; a moved-from slot yields `default`.
Only used to project slot buffers back to element lists in contexts where
every slot is provably a `val`. -/
def MVal.strip {α : Type} [Inhabited α] : MVal α → α
  | .val a => a
  | .moved => default

/-- One `*--d_last = std::move(*--last)` step plus the loop of
`std::move_backward(first, last, last + 1)` as used by `Emplace`
(vector.h line 443): `k` iterations remain, `last` is the current destination
index; each iteration move-assigns slot `last - 1` into slot `last`, leaving
the source slot moved-from, then steps both indices down. -/
def moveBackN {α : Type} : Nat → List (MVal α) → Nat → List (MVal α)
  | 0, l, _ => l
  | k + 1, l, last =>
      moveBackN k ((l.set last (l.getD (last - 1) .moved)).set (last - 1) .moved) (last - 1)

/-- The loop of `std::move(first, last, first - 1)` as used by `Erase`
(vector.h line 466): `k` iterations remain, `src` is the current source index;
each iteration move-assigns slot `src` into slot `src - 1`, leaving the source
slot moved-from, then steps forward. -/
def shiftLeftN {α : Type} : Nat → List (MVal α) → Nat → List (MVal α)
  | 0, l, _ => l
  | k + 1, l, src =>
      shiftLeftN k ((l.set (src - 1) (l.getD src .moved)).set src .moved) (src + 1)

/-- The loop of `std::copy(first, last, first - 1)` as used by `Erase`
(vector.h line 470): like `shiftLeftN` but copy-assignment leaves the source
slot intact. -/
def copyLeftN {α : Type} : Nat → List (MVal α) → Nat → List (MVal α)
  | 0, l, _ => l
  | k + 1, l, src =>
      copyLeftN k (l.set (src - 1) (l.getD src .moved)) (src + 1)

/-- The compile-time properties of the element type `T` that the
`if constexpr` dispatches in vector.h test. -/
structure TypeTraits where
  nothrowMoveConstructible : Bool
  copyConstructible : Bool
  nothrowMoveAssignable : Bool
deriving DecidableEq

/-- The dispatch condition
`std::is_nothrow_move_constructible_v<T> || !std::is_copy_constructible_v<T>`
used by `Reserve` (line 300), `EmplaceBack` (line 372), `Emplace` (line 409)
and `Erase` (line 463). -/
def moveOrNoCopy (t : TypeTraits) : Bool :=
  t.nothrowMoveConstructible || !t.copyConstructible

/-- Modelled from the spec: the spec's stated dispatch for `EraseAt`, namely
"move-assignment if T's move-assignment cannot fail, else copy-assignment".
Stated only to be compared against the dispatch the code actually performs
(`moveOrNoCopy`). -/
def specEraseByMoveAssign (t : TypeTraits) : Bool :=
  t.nothrowMoveAssignable

/-- The new-capacity computation `size_ == 0 ? 1 : size_ * 2` of
`EmplaceBack` (vector.h line 369) and `Emplace` (line 406). -/
def newCapOf (size : Nat) : Nat :=
  if size = 0 then 1 else size * 2

/-- The `pos != end(), size_ < capacity` branch of `Vector<T>::Emplace`
(vector.h lines 439-446), with the construction of the temporary `buffer`
allowed to fail (`newVal = none`).  `a` is the live-element list, `p` the
insert index.  Steps, in source order:
1. `new (data_ + size_) T(std::move(*(end() - 1)))` - the last element is
   move-constructed into the one-past-end slot, leaving slot `n - 1`
   moved-from (line 441);
2. `T buffer(std::forward<Ts>(vs)...)` - may throw; if it does, the exception
   escapes with `size_` unchanged, so the observable array is slots
   `[0, n)` at that moment (line 442);
3. `std::move_backward(begin() + pos_index, end() - 1, end())` (line 443);
4. `*(data_ + pos_index) = std::move(buffer)` (line 444), then `++size_`,
   making slots `[0, n + 1)` live. -/
def emplaceNoGrowTry {α : Type} (a : List α) (p : Nat) (newVal : Option α) :
    Except (List (MVal α)) (List (MVal α)) :=
  let n := a.length
  let l := a.map MVal.val
  let b := (l.set (n - 1) .moved) ++ [l.getD (n - 1) .moved]
  match newVal with
  | none => .error (b.take n)
  | some v => .ok ((moveBackN (n - 1 - p) b (n - 1)).set p (.val v))

/-- `Vector<T>::Emplace` (vector.h lines 392-449), successful execution, as a
function of the live elements `a`, the capacity `cap`, the insert index `p`
and the new value `x`.  Returns (live slots after, new capacity, index of the
inserted element, i.e. `result - begin()`).  Branch structure mirrors the
source: `pos == end()` delegates to `EmplaceBack` (line 397-400, lines
362-390); a full buffer triggers growth into a fresh buffer of capacity
`newCapOf size_` whose slot `pos_index` receives the new element first and
whose remaining slots receive the migrated elements `[0, pos)` and
`[pos, size_)` (lines 403-437); otherwise the in-place shift
`emplaceNoGrowTry` runs (lines 439-446). -/
def emplaceSlots {α : Type} (a : List α) (cap : Nat) (p : Nat) (x : α) :
    List (MVal α) × Nat × Nat :=
  if p = a.length then
    -- EmplaceBack: construct at slot size_, growing first if size_ == capacity
    if a.length = cap then
      ((a.map MVal.val) ++ [.val x], newCapOf a.length, a.length)
    else
      ((a.map MVal.val) ++ [.val x], cap, a.length)
  else if a.length = cap then
    -- growth branch: new element constructed at new_data + pos_index, then
    -- [0, pos) migrated to the front and [pos, size_) to result + 1; the
    -- migrated copies (or moves) carry the original values
    ((a.take p).map MVal.val ++ .val x :: (a.drop p).map MVal.val,
      newCapOf a.length, p)
  else
    (match emplaceNoGrowTry a p (some x) with
      | .ok l => l
      | .error l => l,
      cap, p)

/-- `Vector<T>::Erase` (vector.h lines 458-475) as a function of the element
traits, the live elements `a` and the erase index `p`.  Returns (live slots
after, returned index `result - begin()`).  The shift left of
`[pos + 1, end)` is by move-assignment when `moveOrNoCopy t` holds and by
copy-assignment otherwise; then `std::destroy_at(std::prev(end()))` destroys
the last live slot and `--size_` drops it from the live range. -/
def eraseSlots {α : Type} (t : TypeTraits) (a : List α) (p : Nat) :
    List (MVal α) × Nat :=
  let n := a.length
  let l := a.map MVal.val
  let shifted :=
    if moveOrNoCopy t then shiftLeftN (n - (p + 1)) l (p + 1)
    else copyLeftN (n - (p + 1)) l (p + 1)
  (shifted.take (n - 1), p)

/-- Observable state of a `Vector<T>` (vector.h lines 36-79): `elems` is the
list of live elements (slots `[0, size_)`, so `Size()` is `elems.length`)
and `capacity` is `data_.Capacity()`. -/
structure Vector (α : Type) where
  elems : List α
  capacity : Nat
deriving DecidableEq

/-- `Vector<T>::Size` (vector.h lines 280-284). -/
def Vector.size {α : Type} (v : Vector α) : Nat :=
  v.elems.length

/-- `Vector()` default constructor: null buffer, `size_ = 0`. -/
def Vector.mk0 (α : Type) : Vector α :=
  ⟨[], 0⟩

/-- `Vector(size_t size)` (vector.h lines 175-181): allocates capacity
exactly `size` and value-constructs `size` elements; `d` stands for the
value-constructed `T()`. -/
def Vector.ofSize {α : Type} (n : Nat) (d : α) : Vector α :=
  ⟨List.replicate n d, n⟩

/-- `Vector(const Vector&)` (vector.h lines 183-189): allocates capacity
`other.size_` and copy-constructs each element. -/
def Vector.copyCtor {α : Type} (other : Vector α) : Vector α :=
  ⟨other.elems, other.elems.length⟩

/-- `Vector(Vector&&)` (vector.h lines 219-224): `data_` is move-constructed
from `other.data_` (leaving it null, capacity 0) and `size_` is
`std::exchange(other.size_, 0)`.  Returns (new this, moved-from other). -/
def Vector.moveCtor {α : Type} (other : Vector α) : Vector α × Vector α :=
  (⟨other.elems, other.capacity⟩, ⟨[], 0⟩)

/-- `Vector<T>::operator=(Vector&&)` (vector.h lines 226-235): if
`this != &rhs`, `data_.Swap(rhs.data_)` and `std::swap(size_, rhs.size_)` -
a full state exchange.  Returns (new this, new rhs). -/
def Vector.moveAssign {α : Type} (self : Bool) (tgt rhs : Vector α) :
    Vector α × Vector α :=
  if self then (tgt, rhs)
  else (⟨rhs.elems, rhs.capacity⟩, ⟨tgt.elems, tgt.capacity⟩)

/-- `Vector<T>::Swap` (vector.h lines 326-331): exchanges buffers and sizes.
Returns (new this, new other). -/
def Vector.swapOp {α : Type} (a b : Vector α) : Vector α × Vector α :=
  (⟨b.elems, b.capacity⟩, ⟨a.elems, a.capacity⟩)

/-- `std::uninitialized_copy_n` with a throwing copy constructor `cc`
(`cc x = none` means copying `x` raised): copies left to right; on a failure
the already-constructed copies are destroyed and the exception escapes
(`none`). -/
def copyRangeTry {α : Type} (cc : α → Option α) : List α → Option (List α)
  | [] => some []
  | x :: xs =>
    match cc x with
    | none => none
    | some y => (copyRangeTry cc xs).map (fun r => y :: r)

/-- `std::copy_n(src, n, dst)` with a throwing copy assignment: assigns
element by element, left to right; `.error` carries the destination contents
at the moment the exception escapes (already-assigned elements keep their new
values). -/
def copyAssignSeq {α : Type} (cc : α → Option α) :
    List α → List α → Except (List α) (List α)
  | [], d => .ok d
  | _ :: _, [] => .ok []
  | s :: ss, d :: ds =>
    match cc s with
    | none => .error (d :: ds)
    | some y =>
      match copyAssignSeq cc ss ds with
      | .ok r => .ok (y :: r)
      | .error r => .error (y :: r)

/-- `Vector<T>::operator=(const Vector&)` (vector.h lines 191-217) with a
throwing copy `cc`.  `.error` carries the target's observable state when the
exception escapes.  Branches, in source order:
* `this == &rhs`: no-op;
* `rhs.size_ > data_.Capacity()` (lines 196-200): `Vector rhs_copy(rhs)` is
  built first (copy-constructing every element into a fresh buffer); only on
  full success does `Swap(rhs_copy)` replace the target, whose capacity
  becomes `rhs_copy`'s, namely `rhs.size_`; a failure escapes before the
  target is touched;
* `rhs.size_ < size_` (lines 203-207): `std::copy_n` the `rhs.size_`
  elements over the front, then destroy the excess tail and set
  `size_ = rhs.size_`;
* otherwise (lines 208-213): `std::copy_n` over the existing `size_` slots,
  then `std::uninitialized_copy_n` the remaining `rhs.size_ - size_` elements
  into the tail (which rolls its own constructions back on failure), then
  `size_ = rhs.size_` - the size update happens only after all copies. -/
def Vector.copyAssignTry {α : Type} (cc : α → Option α) (self : Bool)
    (tgt rhs : Vector α) : Except (Vector α) (Vector α) :=
  if self then .ok tgt
  else if rhs.size > tgt.capacity then
    match copyRangeTry cc rhs.elems with
    | none => .error tgt
    | some copied => .ok ⟨copied, rhs.size⟩
  else if rhs.size < tgt.size then
    match copyAssignSeq cc rhs.elems (tgt.elems.take rhs.size) with
    | .error d => .error ⟨d ++ tgt.elems.drop rhs.size, tgt.capacity⟩
    | .ok d => .ok ⟨d, tgt.capacity⟩
  else
    match copyAssignSeq cc (rhs.elems.take tgt.size) tgt.elems with
    | .error d => .error ⟨d, tgt.capacity⟩
    | .ok d =>
      match copyRangeTry cc (rhs.elems.drop tgt.size) with
      | none => .error ⟨d, tgt.capacity⟩
      | some tail => .ok (⟨d ++ tail, tgt.capacity⟩)

/-- `Vector<T>::operator=(const Vector&)` along its successful path: the
throwing-copy embedding run with the never-throwing copy constructor. -/
def Vector.copyAssign {α : Type} (self : Bool) (tgt rhs : Vector α) :
    Vector α :=
  match Vector.copyAssignTry (fun x => some x) self tgt rhs with
  | .ok r => r
  | .error r => r

/-- `Vector<T>::Reserve` (vector.h lines 292-311): a no-op when
`new_capacity <= data_.Capacity()`; otherwise migrates the live elements
(by move or copy, either way carrying their values) into a fresh buffer of
capacity exactly `new_capacity` and swaps it in. -/
def Vector.reserve {α : Type} (v : Vector α) (n : Nat) : Vector α :=
  if n ≤ v.capacity then v else ⟨v.elems, n⟩

/-- `Vector<T>::Resize` (vector.h lines 333-346): shrinking destroys the
elements in `[new_size, size_)`; growing reserves and value-constructs the
elements in `[size_, new_size)` (`d` stands for the value-constructed `T()`);
finally `size_ = new_size`. -/
def Vector.resize {α : Type} (v : Vector α) (n : Nat) (d : α) : Vector α :=
  if n < v.size then
    ⟨v.elems.take n, v.capacity⟩
  else if v.size < n then
    let r := v.reserve n
    ⟨r.elems ++ List.replicate (n - v.size) d, r.capacity⟩
  else
    v

/-- `Vector<T>::EmplaceBack` (vector.h lines 362-390), successful execution:
when `size_ == data_.Capacity()`, a fresh buffer of capacity
`newCapOf size_` receives the new element at slot `size_` first and then the
migrated elements `[0, size_)`; otherwise the new element is constructed in
place at slot `size_`; `++size_`. -/
def Vector.emplaceBack {α : Type} (v : Vector α) (x : α) : Vector α :=
  if v.size = v.capacity then
    ⟨v.elems ++ [x], newCapOf v.size⟩
  else
    ⟨v.elems ++ [x], v.capacity⟩

/-- `Vector<T>::PushBack` (vector.h lines 348-353): forwards to
`EmplaceBack`. -/
def Vector.pushBack {α : Type} (v : Vector α) (x : α) : Vector α :=
  v.emplaceBack x

/-- `Vector<T>::PopBack` (vector.h lines 355-360): destroys slot
`size_ - 1` and decrements `size_`. -/
def Vector.popBack {α : Type} (v : Vector α) : Vector α :=
  ⟨v.elems.take (v.size - 1), v.capacity⟩

/-- `Vector<T>::Emplace` projected to the observable `Vector` state, with the
returned iterator as an index.  Uses `MVal.strip`; the net-effect lemmas show
every surviving slot is a constructed value, so the `default` never shows
through. -/
def Vector.emplaceV {α : Type} [Inhabited α] (v : Vector α) (p : Nat) (x : α) :
    Vector α × Nat :=
  let r := emplaceSlots v.elems v.capacity p x
  (⟨r.1.map MVal.strip, r.2.1⟩, r.2.2)

/-- `Vector<T>::Insert` (vector.h lines 451-456): forwards to `Emplace`. -/
def Vector.insertV {α : Type} [Inhabited α] (v : Vector α) (p : Nat) (x : α) :
    Vector α × Nat :=
  v.emplaceV p x

/-- `Vector<T>::Erase` projected to the observable `Vector` state, with the
returned iterator as an index. -/
def Vector.eraseV {α : Type} [Inhabited α] (t : TypeTraits) (v : Vector α)
    (p : Nat) : Vector α × Nat :=
  let r := eraseSlots t v.elems p
  (⟨r.1.map MVal.strip, v.capacity⟩, r.2)

/-- One public mutating operation of `Vector<T>`, with its arguments. -/
inductive VOp (α : Type) where
  | reserve (n : Nat)
  | resize (n : Nat) (d : α)
  | pushBack (x : α)
  | popBack
  | insertAt (p : Nat) (x : α)
  | eraseAt (t : TypeTraits) (p : Nat)
  | copyAssignFrom (rhs : Vector α)
  | moveAssignFrom (rhs : Vector α)
  | swapWith (rhs : Vector α)

/-- The documented preconditions ("valid inputs") of each operation, plus the
size/capacity invariant of any second vector involved. -/
def VOp.valid {α : Type} : VOp α → Vector α → Prop
  | .reserve _, _ => True
  | .resize _ _, _ => True
  | .pushBack _, _ => True
  | .popBack, v => 0 < v.size
  | .insertAt p _, v => p ≤ v.size
  | .eraseAt _ p, v => p < v.size
  | .copyAssignFrom rhs, _ => rhs.size ≤ rhs.capacity
  | .moveAssignFrom rhs, _ => rhs.size ≤ rhs.capacity
  | .swapWith rhs, _ => rhs.size ≤ rhs.capacity

/-- Applies an operation to a vector state (for the two-object operations,
the state of `*this` afterwards). -/
def VOp.apply {α : Type} [Inhabited α] : VOp α → Vector α → Vector α
  | .reserve n, v => v.reserve n
  | .resize n d, v => v.resize n d
  | .pushBack x, v => v.pushBack x
  | .popBack, v => v.popBack
  | .insertAt p x, v => (v.emplaceV p x).1
  | .eraseAt t p, v => (Vector.eraseV t v p).1
  | .copyAssignFrom rhs, v => Vector.copyAssign false v rhs
  | .moveAssignFrom rhs, v => (Vector.moveAssign false v rhs).1
  | .swapWith rhs, v => (Vector.swapOp v rhs).1

/-- Marks the operations whose effect is a wholesale exchange of buffer
ownership with another vector (`Swap` and swap-based move-assignment). -/
def VOp.isBufferExchange {α : Type} : VOp α → Bool
  | .moveAssignFrom _ => true
  | .swapWith _ => true
  | _ => false

end AdvVec

namespace AdvVec


/-- Net effect of the `std::move_backward` loop: with `k` iterations ending at
destination index `last`, slots `[last - k + 1, last]` receive the old values
of slots `[last - k, last - 1]`, slot `last - k` ends moved-from, and all
other slots are untouched. -/
theorem moveBackN_eq {α : Type} :
    ∀ (k : Nat) (l : List (MVal α)) (last : Nat), 0 < k → k ≤ last →
      last < l.length →
      moveBackN k l last =
        l.take (last - k) ++ [MVal.moved] ++ (l.drop (last - k)).take k ++
          l.drop (last + 1) := by
  intro k
  induction k with
  | zero => intro l last h0 _ _; exact absurd h0 (Nat.lt_irrefl 0)
  | succ k ih =>
    intro l last _ hk hlen
    have hlast1 : last - 1 < l.length := by omega
    have hgetD : l.getD (last - 1) MVal.moved = l[last - 1] := by
      simp [List.getD_eq_getElem?_getD, List.getElem?_eq_getElem hlast1]
    have hplus : last - 1 + 1 = last := by omega
    rcases Nat.eq_zero_or_pos k with hk0 | hkpos
    · subst hk0
      have hstep : moveBackN (0 + 1) l last =
          (l.set last (l.getD (last - 1) MVal.moved)).set (last - 1)
            MVal.moved := rfl
      rw [hstep, hgetD]
      have htake : (l.set last l[last - 1]).take (last - 1) =
          l.take (last - 1) := by
        rw [List.set_take]
        exact List.set_eq_of_length_le (by simp only [List.length_take, List.length_set, List.length_drop]; omega)
      have hdrop : (l.set last l[last - 1]).drop last =
          l[last - 1] :: l.drop (last + 1) := by
        rw [List.drop_set, if_neg (by omega), Nat.sub_self,
          List.drop_eq_getElem_cons hlen, List.set_cons_zero]
      have hset : (l.set last l[last - 1]).set (last - 1) MVal.moved =
          (l.set last l[last - 1]).take (last - 1) ++ MVal.moved ::
            (l.set last l[last - 1]).drop (last - 1 + 1) := by
        rw [List.set_eq_take_append_cons_drop, if_pos (by simp; omega)]
      rw [hset, hplus, htake, hdrop]
      have hone : (l.drop (last - (0 + 1))).take (0 + 1) = [l[last - 1]] := by
        rw [Nat.zero_add, List.drop_eq_getElem_cons hlast1]
        rfl
      rw [hone, Nat.zero_add]
      simp
    · have hstep : moveBackN (k + 1) l last =
          moveBackN k ((l.set last (l.getD (last - 1) MVal.moved)).set
            (last - 1) MVal.moved) (last - 1) := rfl
      rw [hstep, hgetD]
      rw [ih _ (last - 1) hkpos (by omega) (by simp; omega)]
      have hd : last - 1 - k = last - (k + 1) := by omega
      rw [hd, hplus]
      have hdlt : last - (k + 1) ≤ last - 1 := by omega
      have htake : ((l.set last l[last - 1]).set (last - 1)
          MVal.moved).take (last - (k + 1)) = l.take (last - (k + 1)) := by
        rw [List.set_take, List.set_take]
        rw [List.set_eq_of_length_le (by simp only [List.length_take, List.length_set, List.length_drop]; omega)]
        exact List.set_eq_of_length_le (by simp only [List.length_take, List.length_set, List.length_drop]; omega)
      have hdropTake : (((l.set last l[last - 1]).set (last - 1)
            MVal.moved).drop (last - (k + 1))).take k =
          (l.drop (last - (k + 1))).take k := by
        rw [List.drop_set, if_neg (by omega)]
        rw [List.drop_set, if_neg (by omega)]
        rw [List.set_take, List.set_take]
        rw [List.set_eq_of_length_le (by simp only [List.length_take, List.length_set, List.length_drop]; omega)]
        exact List.set_eq_of_length_le (by simp only [List.length_take, List.length_set, List.length_drop]; omega)
      have hdropLast : ((l.set last l[last - 1]).set (last - 1)
            MVal.moved).drop last = l[last - 1] :: l.drop (last + 1) := by
        rw [List.drop_set, if_pos (by omega)]
        rw [List.drop_set, if_neg (by omega), Nat.sub_self,
          List.drop_eq_getElem_cons hlen, List.set_cons_zero]
      rw [htake, hdropTake, hdropLast]
      have hsucc : (l.drop (last - (k + 1))).take (k + 1) =
          (l.drop (last - (k + 1))).take k ++ [l[last - 1]] := by
        rw [List.take_succ, List.getElem?_drop]
        rw [show last - (k + 1) + k = last - 1 by omega,
          List.getElem?_eq_getElem hlast1]
        rfl
      rw [hsucc]
      simp

/-- Setting slot `i` and taking `i + 1` slots appends the new value to the
unchanged first `i` slots. -/
theorem take_succ_set_self {α : Type} (l : List α) (i : Nat) (v : α)
    (h : i < l.length) : (l.set i v).take (i + 1) = l.take i ++ [v] := by
  rw [List.take_succ, List.set_take]
  rw [List.set_eq_of_length_le (by simp only [List.length_take]; omega)]
  rw [List.getElem?_set_self (by simpa using h)]
  rfl

/-- Net effect of the `std::move` forward loop of `Erase`: with `k`
iterations starting at source index `src`, slots `[src - 1, src + k - 2]`
receive the old values of slots `[src, src + k - 1]`, slot `src + k - 1` ends
moved-from, and all other slots are untouched. -/
theorem shiftLeftN_eq {α : Type} :
    ∀ (k : Nat) (l : List (MVal α)) (src : Nat), 0 < k → 0 < src →
      src + k ≤ l.length →
      shiftLeftN k l src =
        l.take (src - 1) ++ (l.drop src).take k ++ [MVal.moved] ++
          l.drop (src + k) := by
  intro k
  induction k with
  | zero => intro l src h0 _ _; exact absurd h0 (Nat.lt_irrefl 0)
  | succ k ih =>
    intro l src _ hsrc hlen
    have hsl : src < l.length := by omega
    have hgetD : l.getD src MVal.moved = l[src] := by
      simp [List.getD_eq_getElem?_getD, List.getElem?_eq_getElem hsl]
    have hplus : src - 1 + 1 = src := by omega
    have htk : (l.set (src - 1) l[src]).take src =
        l.take (src - 1) ++ [l[src]] := by
      have h0 := take_succ_set_self l (src - 1) (l[src]) (by omega)
      rwa [hplus] at h0
    rcases Nat.eq_zero_or_pos k with hk0 | hkpos
    · subst hk0
      have hstep : shiftLeftN (0 + 1) l src =
          (l.set (src - 1) (l.getD src MVal.moved)).set src MVal.moved := rfl
      rw [hstep, hgetD]
      have hset : (l.set (src - 1) l[src]).set src MVal.moved =
          (l.set (src - 1) l[src]).take src ++ MVal.moved ::
            (l.set (src - 1) l[src]).drop (src + 1) := by
        rw [List.set_eq_take_append_cons_drop, if_pos (by simp; omega)]
      rw [hset, htk]
      rw [List.drop_set, if_pos (by omega)]
      have hone : (l.drop src).take (0 + 1) = [l[src]] := by
        rw [Nat.zero_add, List.drop_eq_getElem_cons hsl]
        rfl
      rw [hone]
      simp
    · have hstep : shiftLeftN (k + 1) l src =
          shiftLeftN k ((l.set (src - 1) (l.getD src MVal.moved)).set src
            MVal.moved) (src + 1) := rfl
      rw [hstep, hgetD]
      rw [ih _ (src + 1) hkpos (by omega) (by simp; omega)]
      have h1 : ((l.set (src - 1) l[src]).set src MVal.moved).take src =
          l.take (src - 1) ++ [l[src]] := by
        rw [List.set_take]
        rw [List.set_eq_of_length_le (by simp only [List.length_take]; omega)]
        exact htk
      have h2 : ((l.set (src - 1) l[src]).set src MVal.moved).drop (src + 1) =
          l.drop (src + 1) := by
        rw [List.drop_set, if_pos (by omega), List.drop_set,
          if_pos (by omega)]
      have h3 : ((l.set (src - 1) l[src]).set src MVal.moved).drop
          (src + 1 + k) = l.drop (src + 1 + k) := by
        rw [List.drop_set, if_pos (by omega), List.drop_set,
          if_pos (by omega)]
      rw [show src + 1 - 1 = src by omega, h1, h2, h3]
      have hsucc : (l.drop src).take (k + 1) =
          l[src] :: (l.drop (src + 1)).take k := by
        rw [List.drop_eq_getElem_cons hsl]
        rfl
      rw [hsucc, show src + (k + 1) = src + 1 + k by omega]
      simp

/-- Net effect of the `std::copy` forward loop of `Erase`: with `k`
iterations starting at source index `src`, slots `[src - 1, src + k - 2]`
receive the values of slots `[src, src + k - 1]` and all slots from
`src + k - 1` on are untouched. -/
theorem copyLeftN_eq {α : Type} :
    ∀ (k : Nat) (l : List (MVal α)) (src : Nat), 0 < src →
      src + k ≤ l.length →
      copyLeftN k l src =
        l.take (src - 1) ++ (l.drop src).take k ++ l.drop (src - 1 + k) := by
  intro k
  induction k with
  | zero =>
    intro l src hsrc _
    simp only [copyLeftN, List.take_zero, Nat.add_zero, List.nil_append,
      List.append_nil]
    rw [List.take_append_drop]
  | succ k ih =>
    intro l src hsrc hlen
    have hsl : src < l.length := by omega
    have hgetD : l.getD src MVal.moved = l[src] := by
      simp [List.getD_eq_getElem?_getD, List.getElem?_eq_getElem hsl]
    have hplus : src - 1 + 1 = src := by omega
    have htk : (l.set (src - 1) l[src]).take src =
        l.take (src - 1) ++ [l[src]] := by
      have h0 := take_succ_set_self l (src - 1) (l[src]) (by omega)
      rwa [hplus] at h0
    have hstep : copyLeftN (k + 1) l src =
        copyLeftN k (l.set (src - 1) (l.getD src MVal.moved)) (src + 1) := rfl
    rw [hstep, hgetD]
    rw [ih (l.set (src - 1) l[src]) (src + 1) (by omega) (by simp; omega)]
    have h2 : (l.set (src - 1) l[src]).drop (src + 1) = l.drop (src + 1) := by
      rw [List.drop_set, if_pos (by omega)]
    have h3 : (l.set (src - 1) l[src]).drop (src + k) =
        l.drop (src + k) := by
      rw [List.drop_set, if_pos (by omega)]
    rw [show src + 1 - 1 = src by omega, htk, h2, h3]
    have hsucc : (l.drop src).take (k + 1) =
        l[src] :: (l.drop (src + 1)).take k := by
      rw [List.drop_eq_getElem_cons hsl]
      rfl
    rw [hsucc, show src - 1 + (k + 1) = src + k by omega]
    simp

/-- The in-place branch of `Emplace`, when the temporary's construction
succeeds, produces exactly the insertion of `v` at index `p`: the
one-past-end move, the backward shift and the final move-assignment compose
to `take p ++ v :: drop p`, with every slot holding a constructed value. -/
theorem emplaceNoGrowTry_some_eq {α : Type} (a : List α) (p : Nat) (v : α)
    (hp : p < a.length) :
    emplaceNoGrowTry a p (some v) =
      .ok ((a.map MVal.val).take p ++ .val v ::
        (a.map MVal.val).drop p) := by
  have hn : 0 < a.length := by omega
  have hll : (a.map (MVal.val (α := α))).length = a.length :=
    List.length_map _ _
  have hl1 : a.length - 1 < (a.map (MVal.val (α := α))).length := by omega
  have hgetD : (a.map MVal.val).getD (a.length - 1) MVal.moved =
      (a.map MVal.val)[a.length - 1] := by
    simp [List.getD_eq_getElem?_getD, List.getElem?_eq_getElem hl1]
  simp only [emplaceNoGrowTry, hgetD]
  congr 1
  set l := a.map (MVal.val (α := α)) with hldef
  set n := a.length with hndef
  have hbl : (l.set (n - 1) MVal.moved).length = n := by
    simp only [List.length_set]
    exact hll
  rcases Nat.eq_or_lt_of_le (Nat.succ_le_of_lt hp) with hpe | hplt
  · -- p = n - 1 : the move_backward range is empty
    have hpn : p = n - 1 := by omega
    have hk0 : n - 1 - p = 0 := by omega
    rw [hk0]
    have hmb : moveBackN 0 (l.set (n - 1) MVal.moved ++ [l[n - 1]])
        (n - 1) = l.set (n - 1) MVal.moved ++ [l[n - 1]] := rfl
    rw [hmb, hpn]
    rw [List.set_append_left _ _ (by omega), List.set_set]
    have hset : l.set (n - 1) (MVal.val v) =
        l.take (n - 1) ++ MVal.val v :: l.drop (n - 1 + 1) := by
      rw [List.set_eq_take_append_cons_drop, if_pos (by omega)]
    have hdn : l.drop (n - 1 + 1) = [] :=
      List.drop_eq_nil_of_le (by omega)
    have hdrop : l.drop (n - 1) = [l[n - 1]] := by
      rw [List.drop_eq_getElem_cons hl1, hdn]
    rw [hset, hdn, hdrop]
    simp
  · -- p < n - 1 : apply the move_backward net-effect lemma
    have hkpos : 0 < n - 1 - p := by omega
    set b := l.set (n - 1) MVal.moved ++ [l[n - 1]] with hbdef
    have hblen : b.length = n + 1 := by
      simp only [hbdef, List.length_append, hbl, List.length_cons,
        List.length_nil]
    rw [moveBackN_eq (n - 1 - p) b (n - 1) hkpos (by omega) (by omega)]
    have hd : n - 1 - (n - 1 - p) = p := by omega
    rw [hd]
    have htb : b.take p = l.take p := by
      rw [hbdef, List.take_append_of_le_length (by omega), List.set_take]
      exact List.set_eq_of_length_le
        (by simp only [List.length_take]; omega)
    have hdb : b.drop p = (l.set (n - 1) MVal.moved).drop p ++ [l[n - 1]] :=
      List.drop_append_of_le_length (by omega)
    have hdbt : (b.drop p).take (n - 1 - p) =
        (l.drop p).take (n - 1 - p) := by
      rw [hdb, List.take_append_of_le_length
        (by simp only [List.length_drop, hbl]; omega)]
      rw [List.drop_set, if_neg (by omega), List.set_take]
      exact List.set_eq_of_length_le
        (by simp only [List.length_take]; omega)
    have hdn : b.drop n = [l[n - 1]] := by
      rw [hbdef, List.drop_left' hbl]
    rw [htb, hdbt, show n - 1 + 1 = n by omega, hdn]
    have hsetp : (l.take p ++ [MVal.moved] ++ (l.drop p).take (n - 1 - p) ++
        [l[n - 1]]).set p (MVal.val v) =
        l.take p ++ [MVal.val v] ++ (l.drop p).take (n - 1 - p) ++
          [l[n - 1]] := by
      rw [List.append_assoc, List.append_assoc,
        List.set_append_right _ _ (by simp only [List.length_take]; omega)]
      rw [show p - (l.take p).length = 0 by
        simp only [List.length_take]; omega]
      rw [List.append_assoc, List.append_assoc]
      rfl
    rw [hsetp]
    have hrest : (l.drop p).take (n - 1 - p) ++ [l[n - 1]] = l.drop p := by
      have h2 : (l.drop p).take (n - 1 - p + 1) =
          (l.drop p).take (n - 1 - p) ++ [l[n - 1]] := by
        rw [List.take_succ, List.getElem?_drop,
          show p + (n - 1 - p) = n - 1 by omega,
          List.getElem?_eq_getElem hl1]
        rfl
      rw [← h2]
      exact List.take_of_length_le (by simp only [List.length_drop, hll]; omega)
    rw [List.append_assoc, List.append_assoc, hrest]
    simp

/-- If the temporary's construction throws, the exception escapes while the
live range is still `[0, size_)`: the observable array is the original list
with only its last element moved-from (transferred into the spare slot), and
no element has been shifted. -/
theorem emplaceNoGrowTry_none_eq {α : Type} (a : List α) (p : Nat) :
    emplaceNoGrowTry a p none =
      .error ((a.map MVal.val).set (a.length - 1) MVal.moved) := by
  simp only [emplaceNoGrowTry]
  congr 1
  exact List.take_left' (by simp only [List.length_set, List.length_map])

/-- Full characterization of `Emplace` on a valid state: the surviving slots
are the insertion of `x` at index `p`, the capacity doubles (from
`newCapOf`) exactly when the buffer was full, and the returned iterator
points at index `p`. -/
theorem emplaceSlots_eq {α : Type} (a : List α) (cap p : Nat) (x : α)
    (hp : p ≤ a.length) :
    emplaceSlots a cap p x =
      ((a.take p ++ x :: a.drop p).map MVal.val,
        (if a.length = cap then newCapOf a.length else cap), p) := by
  simp only [emplaceSlots]
  rcases Nat.eq_or_lt_of_le hp with hpe | hplt
  · rw [if_pos hpe]
    have htd : a.take p ++ x :: a.drop p = a ++ [x] := by
      rw [hpe, List.take_length, List.drop_length]
    rw [htd]
    by_cases hfull : a.length = cap
    · rw [if_pos hfull, if_pos hfull]
      simp [hpe]
    · rw [if_neg hfull, if_neg hfull]
      simp [hpe]
  · rw [if_neg (by omega)]
    by_cases hfull : a.length = cap
    · rw [if_pos hfull, if_pos hfull]
      simp
    · rw [if_neg hfull, if_neg hfull]
      rw [emplaceNoGrowTry_some_eq a p x hplt]
      simp

/-- Full characterization of `Erase` on a valid state, for either shift
strategy: the surviving slots are the original list with index `p` removed
(all of them constructed values), and the returned iterator points at index
`p`, the position that followed the erased element. -/
theorem eraseSlots_eq {α : Type} (t : TypeTraits) (a : List α) (p : Nat)
    (hp : p < a.length) :
    eraseSlots t a p = ((a.take p ++ a.drop (p + 1)).map MVal.val, p) := by
  have hll : (a.map (MVal.val (α := α))).length = a.length :=
    List.length_map _ _
  simp only [eraseSlots]
  congr 1
  set l := a.map (MVal.val (α := α)) with hldef
  set n := a.length with hndef
  have hgoal : (a.take p ++ a.drop (p + 1)).map MVal.val =
      l.take p ++ l.drop (p + 1) := by
    simp [hldef]
  rw [hgoal]
  have hlen2 : (l.take p ++ l.drop (p + 1)).length = n - 1 := by
    simp only [List.length_append, List.length_take, List.length_drop, hll]
    omega
  have htk : (l.drop (p + 1)).take (n - (p + 1)) = l.drop (p + 1) :=
    List.take_of_length_le (by simp only [List.length_drop, hll]; omega)
  by_cases hm : moveOrNoCopy t
  · rw [if_pos hm]
    rcases Nat.eq_zero_or_pos (n - (p + 1)) with hk0 | hkpos
    · -- erasing the last element: the shift loop runs zero iterations
      have hpn : p = n - 1 := by omega
      rw [hk0]
      have hs : shiftLeftN 0 l (p + 1) = l := rfl
      have hde : l.drop (p + 1) = [] := List.drop_eq_nil_of_le (by omega)
      rw [hs, hde, List.append_nil, hpn]
    · rw [shiftLeftN_eq (n - (p + 1)) l (p + 1) hkpos (by omega) (by omega)]
      rw [show p + 1 - 1 = p by omega,
        show p + 1 + (n - (p + 1)) = n by omega]
      have hdn : l.drop n = [] := List.drop_eq_nil_of_le (by omega)
      rw [hdn, List.append_nil, htk]
      exact List.take_left' hlen2
  · rw [if_neg hm]
    rw [copyLeftN_eq (n - (p + 1)) l (p + 1) (by omega) (by omega)]
    rw [show p + 1 - 1 = p by omega, htk]
    rw [List.take_append_of_le_length (by omega)]
    exact List.take_of_length_le (by omega)

/-- A copy pass with a never-throwing copy constructor reproduces the source
list. -/
theorem copyRangeTry_id {α : Type} :
    ∀ l : List α, copyRangeTry (fun x => some x) l = some l := by
  intro l
  induction l with
  | nil => rfl
  | cons x xs ih => simp [copyRangeTry, ih]

/-- If copying some element of the list throws, the whole copy pass throws. -/
theorem copyRangeTry_none {α : Type} (cc : α → Option α) :
    ∀ l : List α, (∃ x ∈ l, cc x = none) → copyRangeTry cc l = none := by
  intro l
  induction l with
  | nil =>
    intro h
    rcases h with ⟨x, hx, _⟩
    cases hx
  | cons y ys ih =>
    intro h
    rcases h with ⟨x, hx, hcc⟩
    simp only [copyRangeTry]
    cases hy : cc y with
    | none => rfl
    | some z =>
      rcases List.mem_cons.mp hx with he | hm
      · rw [← he] at hy
        rw [hy] at hcc
        cases hcc
      · rw [ih ⟨x, hm, hcc⟩]
        rfl

/-- An assignment pass with a never-throwing copy, over a destination of the
same length, overwrites it with the source. -/
theorem copyAssignSeq_id {α : Type} :
    ∀ (src dst : List α), src.length = dst.length →
      copyAssignSeq (fun x => some x) src dst = .ok src := by
  intro src
  induction src with
  | nil =>
    intro dst h
    cases dst with
    | nil => rfl
    | cons d ds => simp at h
  | cons s ss ih =>
    intro dst h
    cases dst with
    | nil => simp at h
    | cons d ds =>
      simp only [copyAssignSeq]
      rw [ih ds (by simpa using h)]

/-- The successful path of copy-assignment between distinct vectors: the
target takes the source's element values; its capacity is replaced by
`rhs.size_` exactly when it was too small, and kept otherwise. -/
theorem copyAssign_eq {α : Type} (tgt rhs : Vector α) :
    Vector.copyAssign false tgt rhs =
      if tgt.capacity < rhs.size then (⟨rhs.elems, rhs.size⟩ : Vector α)
      else ⟨rhs.elems, tgt.capacity⟩ := by
  unfold Vector.copyAssign Vector.copyAssignTry
  rw [if_neg Bool.false_ne_true]
  by_cases hgt : tgt.capacity < rhs.size
  · rw [if_pos hgt, if_pos hgt, copyRangeTry_id]
  · rw [if_neg hgt, if_neg hgt]
    by_cases hlt : rhs.size < tgt.size
    · rw [if_pos hlt]
      rw [copyAssignSeq_id rhs.elems (tgt.elems.take rhs.size)
        (by simp only [List.length_take, Vector.size] at hlt ⊢; omega)]
    · rw [if_neg hlt]
      rw [copyAssignSeq_id (rhs.elems.take tgt.size) tgt.elems
        (by simp only [List.length_take, Vector.size] at hlt ⊢; omega)]
      rw [copyRangeTry_id]
      simp only [List.take_append_drop]

/-- Reading back value slots with `MVal.strip` is the identity. -/
theorem strip_val_map {α : Type} [Inhabited α] (l : List α) :
    l.map (MVal.strip ∘ MVal.val) = l := by
  induction l with
  | nil => rfl
  | cons x xs ih => simp [Function.comp, MVal.strip, ih]

/-- `Emplace` at the `Vector` level: observable state and returned index. -/
theorem emplaceV_state {α : Type} [Inhabited α] (v : Vector α) (p : Nat)
    (x : α) (hp : p ≤ v.size) :
    v.emplaceV p x =
      (⟨v.elems.take p ++ x :: v.elems.drop p,
        if v.size = v.capacity then newCapOf v.size else v.capacity⟩, p) := by
  unfold Vector.emplaceV
  rw [emplaceSlots_eq v.elems v.capacity p x hp]
  simp [List.map_map, strip_val_map, MVal.strip, Vector.size]

/-- `Erase` at the `Vector` level: observable state and returned index. -/
theorem eraseV_state {α : Type} [Inhabited α] (t : TypeTraits) (v : Vector α)
    (p : Nat) (hp : p < v.size) :
    Vector.eraseV t v p =
      (⟨v.elems.take p ++ v.elems.drop (p + 1), v.capacity⟩, p) := by
  unfold Vector.eraseV
  rw [eraseSlots_eq t v.elems p hp]
  simp [List.map_map, strip_val_map, MVal.strip]

/-- Claim C1: the spec says move-assignment of a `RawMemory` transfers the
storage handle and capacity to the target, destroys the target's old storage,
and leaves the source in the empty state (null handle, capacity 0).
Evaluating the code at a concrete input - target `{buffer = 100, capacity =
1}`, source `{buffer = 200, capacity = 2}` - shows the transfer and the
deallocation do happen, but the source is left holding the target's old,
already-deallocated handle `100` with capacity 1, not `(null, 0)`; the
deallocations performed by the assignment plus the source's destructor then
free address `100` twice. -/
theorem C1_raw_move_assign_dangling_source :
    (RawMemory.moveAssignOp false ⟨some 100, 1⟩ ⟨some 200, 2⟩).1 =
        ⟨some 200, 2⟩ ∧
    (RawMemory.moveAssignOp false ⟨some 100, 1⟩ ⟨some 200, 2⟩).2.1 =
        ⟨some 100, 1⟩ ∧
    (RawMemory.moveAssignOp false ⟨some 100, 1⟩ ⟨some 200, 2⟩).2.1 ≠
        ⟨none, 0⟩ ∧
    (RawMemory.moveAssignOp false ⟨some 100, 1⟩ ⟨some 200, 2⟩).2.2 ++
        RawMemory.destructorFrees
          (RawMemory.moveAssignOp false ⟨some 100, 1⟩ ⟨some 200, 2⟩).2.1 =
      [some 100, some 100] := by
  decide

/-- Claim C2, counterexample: move-assigning a size-2 vector into a size-1
target leaves the moved-from source with size 1, not 0, because
`operator=(Vector&&)` swaps the two states. -/
theorem C2_counterexample :
    (Vector.moveAssign false (⟨[7], 1⟩ : Vector Nat) ⟨[1, 2], 2⟩).2.size ≠
      0 := by
  decide

/-- Claim C2, amended: move-construction leaves the source empty (size 0,
capacity 0, no buffer); move-assignment between distinct objects exchanges
the two states wholesale, so the source retains no ownership of its original
storage but ends with the target's former elements and size - which is 0
exactly when the target was empty. -/
theorem C2_move_semantics {α : Type} :
    (∀ src : Vector α,
      Vector.moveCtor src = (⟨src.elems, src.capacity⟩, ⟨[], 0⟩) ∧
        (Vector.moveCtor src).2.size = 0) ∧
    (∀ tgt rhs : Vector α,
      Vector.moveAssign false tgt rhs =
        (⟨rhs.elems, rhs.capacity⟩, ⟨tgt.elems, tgt.capacity⟩)) := by
  constructor
  · intro src
    exact ⟨rfl, rfl⟩
  · intro tgt rhs
    unfold Vector.moveAssign
    rw [if_neg Bool.false_ne_true]

/-- Claim C3: in the no-growth branch of `Emplace` with the position strictly
before `end`, if the construction of the temporary holding the new value
throws, the exception escapes with the live range `[0, size_)` intact: same
length (no duplicated or missing element), the elements before the last all
unchanged (in particular no rightward shifting has happened, since the shift
is sequenced after the temporary's construction), and only the last element
left moved-from by the preceding one-past-end move. -/
theorem C3_insert_fail_before_shift {α : Type} (a : List α) (p : Nat)
    (hne : a ≠ []) (_hp : p < a.length) :
    ∃ es, emplaceNoGrowTry a p none = Except.error es ∧
      es.length = a.length ∧
      es.take (a.length - 1) = (a.map MVal.val).take (a.length - 1) ∧
      es[a.length - 1]? = some MVal.moved := by
  have hn : 0 < a.length := List.length_pos.mpr hne
  refine ⟨(a.map MVal.val).set (a.length - 1) MVal.moved,
    emplaceNoGrowTry_none_eq a p, ?_, ?_, ?_⟩
  · simp [List.length_set, List.length_map]
  · rw [List.set_take]
    exact List.set_eq_of_length_le
      (by simp only [List.length_take, List.length_map]; omega)
  · exact List.getElem?_set_self (by simp only [List.length_map]; omega)

/-- Witness for C3 at a concrete input. -/
theorem C3_insert_fail_before_shift_witness :
    ∃ es, emplaceNoGrowTry [1, 2, 3] 1 none = Except.error es ∧
      es.length = ([1, 2, 3] : List Nat).length ∧
      es.take (([1, 2, 3] : List Nat).length - 1) =
        (([1, 2, 3] : List Nat).map MVal.val).take
          (([1, 2, 3] : List Nat).length - 1) ∧
      es[([1, 2, 3] : List Nat).length - 1]? = some MVal.moved :=
  C3_insert_fail_before_shift [1, 2, 3] 1 (by decide) (by decide)

/-- Claim C4: when the source's size exceeds the target's capacity,
copy-assignment first builds a complete copy of the source; if copying any
element throws, the exception escapes before the swap, and the target is
returned unchanged - same element values and same capacity. -/
theorem C4_copy_assign_strong {α : Type} (cc : α → Option α)
    (tgt rhs : Vector α) (hgt : tgt.capacity < rhs.size)
    (hfail : ∃ x ∈ rhs.elems, cc x = none) :
    Vector.copyAssignTry cc false tgt rhs = Except.error tgt := by
  unfold Vector.copyAssignTry
  rw [if_neg Bool.false_ne_true, if_pos hgt,
    copyRangeTry_none cc rhs.elems hfail]

/-- Witness for C4 at a concrete input: copying the element 5 throws. -/
theorem C4_copy_assign_strong_witness :
    Vector.copyAssignTry (fun x => if x = 5 then none else some x) false
      (⟨[1], 1⟩ : Vector Nat) ⟨[4, 5], 2⟩ = Except.error ⟨[1], 1⟩ :=
  C4_copy_assign_strong (fun x => if x = 5 then none else some x)
    ⟨[1], 1⟩ ⟨[4, 5], 2⟩ (by decide) ⟨5, by decide, by decide⟩

/-- Claim C5: on a valid state, a successful insertion at position
`p ≤ size` yields exactly `a0..a(p-1), x, ap..an`, returns the iterator at
index `p`, and produces the same sequence as it would with a full buffer
(capacity = size), i.e. the result does not depend on whether growth was
triggered. -/
theorem C5_insert_sequence {α : Type} (a : List α) (cap p : Nat) (x : α)
    (hp : p ≤ a.length) (_hcap : a.length ≤ cap) :
    (emplaceSlots a cap p x).1 = (a.take p ++ x :: a.drop p).map MVal.val ∧
    (emplaceSlots a cap p x).2.2 = p ∧
    (emplaceSlots a cap p x).1 = (emplaceSlots a a.length p x).1 := by
  rw [emplaceSlots_eq a cap p x hp, emplaceSlots_eq a a.length p x hp]
  exact ⟨rfl, rfl, rfl⟩

/-- Witness for C5 at a concrete input (no growth needed: capacity 4, size
3; the third conjunct compares with the growth run at capacity 3). -/
theorem C5_insert_sequence_witness :
    (emplaceSlots [10, 20, 30] 4 1 99).1 =
      (([10, 20, 30] : List Nat).take 1 ++ 99 ::
        ([10, 20, 30] : List Nat).drop 1).map MVal.val ∧
    (emplaceSlots [10, 20, 30] 4 1 99).2.2 = 1 ∧
    (emplaceSlots [10, 20, 30] 4 1 99).1 =
      (emplaceSlots [10, 20, 30] ([10, 20, 30] : List Nat).length 1 99).1 :=
  C5_insert_sequence [10, 20, 30] 4 1 99 (by decide) (by decide)

/-- `EmplaceBack` as a single state equation. -/
theorem emplaceBack_state {α : Type} (v : Vector α) (x : α) :
    v.emplaceBack x =
      ⟨v.elems ++ [x],
        if v.size = v.capacity then newCapOf v.size else v.capacity⟩ := by
  unfold Vector.emplaceBack
  split_ifs <;> rfl

/-- `Resize` as a single state equation. -/
theorem resize_state {α : Type} (v : Vector α) (n : Nat) (d : α) :
    v.resize n d =
      if n < v.size then ⟨v.elems.take n, v.capacity⟩
      else if v.size < n then
        ⟨(v.reserve n).elems ++ List.replicate (n - v.size) d,
          (v.reserve n).capacity⟩
      else v := rfl

/-- Claim C6, counterexample: for a copy-constructible element type whose
move-assignment cannot fail but whose move construction can (traits
`⟨nothrowMoveConstructible := false, copyConstructible := true,
nothrowMoveAssignable := true⟩`), the claim requires the shift to use
move-assignment, but the code's dispatch condition
`is_nothrow_move_constructible_v<T> || !is_copy_constructible_v<T>` is false,
so `Erase` shifts by copy-assignment. -/
theorem C6_counterexample :
    moveOrNoCopy ⟨false, true, true⟩ = false ∧
    specEraseByMoveAssign ⟨false, true, true⟩ = true := by
  decide

/-- Claim C6, amended: `Erase` shifts the elements after the position one
slot leftward - by move-assignment when the element type is
nothrow-move-constructible or not copy-constructible (`moveOrNoCopy`), by
copy-assignment otherwise - then destroys the now-redundant last live slot
and decrements the size: for either strategy the result has one element
fewer, positions below `p` are unchanged, and every position from `p` on
holds the element that followed it. -/
theorem C6_erase_mechanics {α : Type} (t : TypeTraits) (a : List α) (p : Nat)
    (hp : p < a.length) :
    (eraseSlots t a p).1.length + 1 = a.length ∧
    (∀ i, i < p → ((eraseSlots t a p).1)[i]? = (a[i]?).map MVal.val) ∧
    (∀ i, p ≤ i → i + 1 < a.length →
      ((eraseSlots t a p).1)[i]? = (a[i + 1]?).map MVal.val) := by
  rw [eraseSlots_eq t a p hp]
  refine ⟨?_, ?_, ?_⟩
  · simp only [List.length_map, List.length_append, List.length_take,
      List.length_drop]
    omega
  · intro i hi
    rw [List.getElem?_map,
      List.getElem?_append_left (by simp only [List.length_take]; omega),
      List.getElem?_take_of_lt hi]
  · intro i hpi hilen
    rw [List.getElem?_map,
      List.getElem?_append_right (by simp only [List.length_take]; omega),
      List.getElem?_drop,
      show p + 1 + (i - (List.take p a).length) = i + 1 from by
        simp only [List.length_take]; omega]

/-- Witness for C6 at a concrete input (move path, erase in the middle). -/
theorem C6_erase_mechanics_witness :
    (eraseSlots (⟨true, true, true⟩ : TypeTraits) [4, 5, 6] 1).1.length + 1 =
      ([4, 5, 6] : List Nat).length ∧
    ((eraseSlots (⟨true, true, true⟩ : TypeTraits) [4, 5, 6] 1).1)[1]? =
      ((([4, 5, 6] : List Nat))[1 + 1]?).map MVal.val :=
  ⟨(C6_erase_mechanics ⟨true, true, true⟩ [4, 5, 6] 1 (by decide)).1,
    (C6_erase_mechanics ⟨true, true, true⟩ [4, 5, 6] 1 (by decide)).2.2 1
      (by decide) (by decide)⟩

/-- Claim C7: erasing position `p < size` yields
`a0..a(p-1), a(p+1)..an`, with the size decremented by one, and returns the
iterator at index `p` - the position that followed the removed element. -/
theorem C7_erase_sequence {α : Type} (t : TypeTraits) (a : List α) (p : Nat)
    (hp : p < a.length) :
    (eraseSlots t a p).1 = (a.take p ++ a.drop (p + 1)).map MVal.val ∧
    (eraseSlots t a p).1.length = a.length - 1 ∧
    (eraseSlots t a p).2 = p := by
  rw [eraseSlots_eq t a p hp]
  refine ⟨rfl, ?_, rfl⟩
  simp only [List.length_map, List.length_append, List.length_take,
    List.length_drop]
  omega

/-- Witness for C7 at a concrete input (copy path, erase at the front). -/
theorem C7_erase_sequence_witness :
    (eraseSlots (⟨false, true, false⟩ : TypeTraits) [7, 8, 9] 0).1 =
      (([7, 8, 9] : List Nat).take 0 ++
        ([7, 8, 9] : List Nat).drop (0 + 1)).map MVal.val ∧
    (eraseSlots (⟨false, true, false⟩ : TypeTraits) [7, 8, 9] 0).1.length =
      ([7, 8, 9] : List Nat).length - 1 ∧
    (eraseSlots (⟨false, true, false⟩ : TypeTraits) [7, 8, 9] 0).2 = 0 :=
  C7_erase_sequence ⟨false, true, false⟩ [7, 8, 9] 0 (by decide)

/-- Claim C8, counterexample: move-assigning an empty, capacity-0 vector into
a capacity-2 vector shrinks the target's capacity from 2 to 0, although
move-assignment is not copy-assignment-with-swap - so "capacity never shrinks
except through explicit copy-assignment-with-swap" fails as stated. -/
theorem C8_counterexample :
    (Vector.moveAssign false (⟨[5, 6], 2⟩ : Vector Nat) ⟨[], 0⟩).1.capacity <
      (⟨[5, 6], 2⟩ : Vector Nat).capacity := by
  decide

/-- Claim C8, amended: whenever an append or a growing positional insert
needs capacity beyond the current buffer (`size_ == capacity`), the new
capacity is 1 if the current capacity is 0 and twice the current capacity
otherwise; and capacity never shrinks under any public mutating operation
other than the buffer-exchanging ones (`Swap` and swap-based
move-assignment) - in particular copy-assignment never shrinks it, since its
rebuild-and-swap path only runs when the source size exceeds the target
capacity. -/
theorem C8_capacity_policy {α : Type} [Inhabited α] :
    (∀ (v : Vector α) (x : α), v.size = v.capacity →
      (v.emplaceBack x).capacity =
        (if v.capacity = 0 then 1 else 2 * v.capacity)) ∧
    (∀ (v : Vector α) (p : Nat) (x : α), v.size = v.capacity → p ≤ v.size →
      ((v.emplaceV p x).1).capacity =
        (if v.capacity = 0 then 1 else 2 * v.capacity)) ∧
    (∀ (op : VOp α) (v : Vector α), VOp.isBufferExchange op = false →
      op.valid v → v.size ≤ v.capacity →
      v.capacity ≤ (op.apply v).capacity) := by
  refine ⟨?_, ?_, ?_⟩
  · intro v x h
    rw [emplaceBack_state, if_pos h]
    show newCapOf v.size = _
    unfold newCapOf
    rw [h]
    by_cases h0 : v.capacity = 0
    · rw [if_pos h0, if_pos h0]
    · rw [if_neg h0, if_neg h0, Nat.mul_comm]
  · intro v p x h hp
    rw [emplaceV_state v p x hp]
    show (if v.size = v.capacity then newCapOf v.size else v.capacity) = _
    rw [if_pos h]
    unfold newCapOf
    rw [h]
    by_cases h0 : v.capacity = 0
    · rw [if_pos h0, if_pos h0]
    · rw [if_neg h0, if_neg h0, Nat.mul_comm]
  · intro op v hexch hval hinv
    cases op with
    | reserve n =>
      show v.capacity ≤ (v.reserve n).capacity
      unfold Vector.reserve
      by_cases hn : n ≤ v.capacity
      · rw [if_pos hn]
      · rw [if_neg hn]
        show v.capacity ≤ n
        omega
    | resize n d =>
      show v.capacity ≤ (v.resize n d).capacity
      rw [resize_state]
      unfold Vector.reserve
      split_ifs <;> first | exact Nat.le_refl _ | (show v.capacity ≤ n; omega)
    | pushBack x =>
      show v.capacity ≤ (v.pushBack x).capacity
      unfold Vector.pushBack
      rw [emplaceBack_state]
      show v.capacity ≤ if v.size = v.capacity then newCapOf v.size
        else v.capacity
      unfold newCapOf
      split_ifs <;> omega
    | popBack =>
      show v.capacity ≤ (v.popBack).capacity
      exact Nat.le_refl _
    | insertAt p x =>
      show v.capacity ≤ ((v.emplaceV p x).1).capacity
      rw [emplaceV_state v p x hval]
      show v.capacity ≤ if v.size = v.capacity then newCapOf v.size
        else v.capacity
      unfold newCapOf
      split_ifs <;> omega
    | eraseAt t p =>
      show v.capacity ≤ ((Vector.eraseV t v p).1).capacity
      rw [eraseV_state t v p hval]
    | copyAssignFrom rhs =>
      show v.capacity ≤ (Vector.copyAssign false v rhs).capacity
      rw [copyAssign_eq]
      split_ifs with h1
      · show v.capacity ≤ rhs.size
        omega
      · exact Nat.le_refl _
    | moveAssignFrom rhs => simp [VOp.isBufferExchange] at hexch
    | swapWith rhs => simp [VOp.isBufferExchange] at hexch

/-- Witness for C8 at concrete inputs: an append on a full capacity-2
vector doubles the capacity to 4; a growing insert at position 0 on a full
capacity-1 vector doubles it to 2; `Reserve 7` does not shrink capacity 3. -/
theorem C8_capacity_policy_witness :
    ((⟨[1, 2], 2⟩ : Vector Nat).emplaceBack 9).capacity =
      (if (⟨[1, 2], 2⟩ : Vector Nat).capacity = 0 then 1
        else 2 * (⟨[1, 2], 2⟩ : Vector Nat).capacity) ∧
    (((⟨[3], 1⟩ : Vector Nat).emplaceV 0 8).1).capacity =
      (if (⟨[3], 1⟩ : Vector Nat).capacity = 0 then 1
        else 2 * (⟨[3], 1⟩ : Vector Nat).capacity) ∧
    (⟨[1], 3⟩ : Vector Nat).capacity ≤
      ((VOp.reserve 7 : VOp Nat).apply ⟨[1], 3⟩).capacity :=
  ⟨(C8_capacity_policy.1) ⟨[1, 2], 2⟩ 9 (by decide),
    (C8_capacity_policy.2.1) ⟨[3], 1⟩ 0 8 (by decide) (by decide),
    (C8_capacity_policy.2.2) (VOp.reserve 7) ⟨[1], 3⟩ (by decide) trivial
      (by decide)⟩

/-- Claim C9: every constructor establishes `size <= capacity`, and every
public operation, applied with valid inputs to a state satisfying
`size <= capacity` (and, where a second vector is involved, to a second
vector satisfying it), produces a state satisfying it again. -/
theorem C9_size_le_capacity {α : Type} [Inhabited α] :
    (Vector.mk0 α).size ≤ (Vector.mk0 α).capacity ∧
    (∀ (n : Nat) (d : α),
      (Vector.ofSize n d).size ≤ (Vector.ofSize n d).capacity) ∧
    (∀ src : Vector α,
      (Vector.copyCtor src).size ≤ (Vector.copyCtor src).capacity) ∧
    (∀ src : Vector α, src.size ≤ src.capacity →
      (Vector.moveCtor src).1.size ≤ (Vector.moveCtor src).1.capacity ∧
      (Vector.moveCtor src).2.size ≤ (Vector.moveCtor src).2.capacity) ∧
    (∀ (op : VOp α) (v : Vector α), v.size ≤ v.capacity → op.valid v →
      (op.apply v).size ≤ (op.apply v).capacity) := by
  refine ⟨Nat.le_refl 0, ?_, ?_, ?_, ?_⟩
  · intro n d
    show (List.replicate n d).length ≤ n
    rw [List.length_replicate]
  · intro src
    exact Nat.le_refl _
  · intro src h
    exact ⟨h, Nat.le_refl 0⟩
  · intro op v hinv hval
    have hsz : v.elems.length = v.size := rfl
    cases op with
    | reserve n =>
      show (v.reserve n).size ≤ (v.reserve n).capacity
      unfold Vector.reserve
      by_cases hn : n ≤ v.capacity
      · rw [if_pos hn]
        exact hinv
      · rw [if_neg hn]
        show v.size ≤ n
        omega
    | resize n d =>
      show (v.resize n d).size ≤ (v.resize n d).capacity
      rw [resize_state]
      unfold Vector.reserve
      split_ifs with h1 h2 h3
      · show (v.elems.take n).length ≤ v.capacity
        simp only [List.length_take]
        omega
      · show (v.elems ++ List.replicate (n - v.size) d).length ≤ v.capacity
        simp only [List.length_append, List.length_replicate]
        omega
      · show (v.elems ++ List.replicate (n - v.size) d).length ≤ n
        simp only [List.length_append, List.length_replicate]
        omega
      · exact hinv
    | pushBack x =>
      show (v.pushBack x).size ≤ (v.pushBack x).capacity
      unfold Vector.pushBack
      rw [emplaceBack_state]
      show (v.elems ++ [x]).length ≤
        if v.size = v.capacity then newCapOf v.size else v.capacity
      simp only [List.length_append, List.length_cons, List.length_nil]
      unfold newCapOf
      split_ifs <;> omega
    | popBack =>
      show (v.elems.take (v.size - 1)).length ≤ v.capacity
      simp only [List.length_take]
      omega
    | insertAt p x =>
      have hpv : p ≤ v.size := hval
      show ((v.emplaceV p x).1).size ≤ ((v.emplaceV p x).1).capacity
      rw [emplaceV_state v p x hpv]
      show (v.elems.take p ++ x :: v.elems.drop p).length ≤
        if v.size = v.capacity then newCapOf v.size else v.capacity
      simp only [List.length_append, List.length_take, List.length_cons,
        List.length_drop]
      unfold newCapOf
      split_ifs <;> omega
    | eraseAt t p =>
      have hpv : p < v.size := hval
      show ((Vector.eraseV t v p).1).size ≤ ((Vector.eraseV t v p).1).capacity
      rw [eraseV_state t v p hpv]
      show (v.elems.take p ++ v.elems.drop (p + 1)).length ≤ v.capacity
      simp only [List.length_append, List.length_take, List.length_drop]
      omega
    | copyAssignFrom rhs =>
      have hr : rhs.elems.length = rhs.size := rfl
      show (Vector.copyAssign false v rhs).size ≤
        (Vector.copyAssign false v rhs).capacity
      rw [copyAssign_eq]
      split_ifs with h1
      · show rhs.elems.length ≤ rhs.size
        omega
      · show rhs.elems.length ≤ v.capacity
        have hvr : rhs.size ≤ v.capacity := Nat.le_of_not_lt h1
        omega
    | moveAssignFrom rhs =>
      have hr : rhs.size ≤ rhs.capacity := hval
      show ((Vector.moveAssign false v rhs).1).size ≤
        ((Vector.moveAssign false v rhs).1).capacity
      unfold Vector.moveAssign
      rw [if_neg Bool.false_ne_true]
      exact hr
    | swapWith rhs =>
      have hr : rhs.size ≤ rhs.capacity := hval
      exact hr

/-- Witness for C9 at a concrete input: inserting into a full vector keeps
`size <= capacity`. -/
theorem C9_size_le_capacity_witness :
    ((VOp.insertAt 0 (9 : Nat)).apply ⟨[1, 2], 2⟩).size ≤
      ((VOp.insertAt 0 (9 : Nat)).apply ⟨[1, 2], 2⟩).capacity :=
  C9_size_le_capacity.2.2.2.2 (VOp.insertAt 0 9) ⟨[1, 2], 2⟩ (by decide)
    (by show (0 : Nat) ≤ (⟨[1, 2], 2⟩ : Vector Nat).size; decide)

/-- Claim C10: both assignment operators first test `this != &rhs` and do
nothing on self-assignment, leaving the vector unchanged in elements, size
and capacity. -/
theorem C10_self_assignment {α : Type} (v : Vector α) :
    Vector.copyAssign true v v = v ∧ Vector.moveAssign true v v = (v, v) :=
  ⟨rfl, rfl⟩

end AdvVec
